import Mathlib

/-!
Shallow embedding of `src/utils/solana.ts` (`getUserStakedAmount`): the
deposit-aggregation engine with its per-user cache, expiry purge, fresh-hit
short circuit, fetch pipeline, aggregator and failure fallback.

Timestamps and durations are integers (milliseconds), decimal token amounts
are rationals.  The ledger source is modelled as an environment: whether the
wallet string parses as a valid public key, and the outcome of the network
fetch pipeline (either an error or the flat list of fetched parsed
transactions, `none` standing for an unresolvable record).
-/

set_option autoImplicit false

namespace Solana

/-- One per-account, per-asset balance record attached to a transaction's
pre/post snapshot (`preTokenBalances` / `postTokenBalances` entry).
`uiAmount` is `uiTokenAmount.uiAmount`, which may be `null`. -/
structure TokenBalance where
  accountIndex : Nat
  owner : Option String
  mint : String
  uiAmount : Option Rat
  deriving Repr, DecidableEq

/-- The meta part of a parsed transaction. -/
structure TxMeta where
  preTokenBalances : Option (List TokenBalance)
  postTokenBalances : Option (List TokenBalance)
  deriving Repr, DecidableEq

/-- A parsed transaction as consumed by the aggregator: its identifier, the
participant account keys of its message (`pubkey.toString()` of each), and
the optional meta. -/
structure ParsedTx where
  signature : String
  accountKeys : List String
  meta : Option TxMeta
  deriving Repr, DecidableEq

/-- A cache entry: the last successfully computed total and its write time. -/
structure CacheEntry where
  amount : Rat
  timestamp : Int
  deriving Repr, DecidableEq

/-- The per-user cache (`stakedAmountCache : Map<string, CacheEntry>`),
modelled as a lookup function. -/
def Cache : Type := String → Option CacheEntry

/-- The start-of-call purge loop: delete every entry whose age strictly
exceeds the TTL (`now - entry.timestamp > CACHE_DURATION`). -/
def purgeExpired (now ttl : Int) (c : Cache) : Cache :=
  fun k =>
    match c k with
    | some e => if now - e.timestamp > ttl then none else some e
    | none => none

/-- `stakedAmountCache.set(walletAddress, { amount, timestamp })`. -/
def cachePut (c : Cache) (k : String) (e : CacheEntry) : Cache :=
  fun k' => if k' = k then some e else c k'

/-- The pre-balance amount paired with a post-balance slot:
`preBalances.find(b => b.accountIndex === post.accountIndex)`, with a
missing entry or a `null` amount read as zero
(`pre?.uiTokenAmount.uiAmount || 0`). -/
def preSlotAmount (pres : List TokenBalance) (post : TokenBalance) : Rat :=
  ((pres.find? (fun b => b.accountIndex == post.accountIndex)).bind
    TokenBalance.uiAmount).getD 0

/-- Contribution of one post-balance slot: qualifying (owned by the
custodial wallet, tagged with the tracked mint) slots contribute their
positive delta against the pre-balance entry with the same `accountIndex`;
missing entries or `null` amounts count as zero. -/
def slotContribution (pres : List TokenBalance) (post : TokenBalance)
    (custodial mint : String) : Rat :=
  if post.owner = some custodial ∧ post.mint = mint then
    if preSlotAmount pres post < post.uiAmount.getD 0 then
      post.uiAmount.getD 0 - preSlotAmount pres post
    else 0
  else 0

/-- Contribution of one transaction (with meta present): zero unless the
queried wallet is among the participant account keys, otherwise the sum of
its qualifying slot contributions. -/
def txContribution (walletAddress custodial mint : String) (meta : TxMeta)
    (tx : ParsedTx) : Rat :=
  if tx.accountKeys.contains walletAddress then
    (meta.postTokenBalances.getD []).foldl
      (fun acc post =>
        acc + slotContribution (meta.preTokenBalances.getD []) post custodial mint)
      0
  else 0

/-- The aggregation loop over the fetched transactions, carrying the
`processedTxs` dedup set and the running total.  A `none` transaction or a
transaction without meta is skipped (and not marked processed); a
transaction whose signature was already processed is skipped. -/
def aggregateGo (walletAddress custodial mint : String) :
    List (Option ParsedTx) → List String → Rat → Rat
  | [], _, total => total
  | none :: rest, processed, total =>
      aggregateGo walletAddress custodial mint rest processed total
  | some tx :: rest, processed, total =>
      match tx.meta with
      | none => aggregateGo walletAddress custodial mint rest processed total
      | some meta =>
          if processed.contains tx.signature then
            aggregateGo walletAddress custodial mint rest processed total
          else
            aggregateGo walletAddress custodial mint rest
              (tx.signature :: processed)
              (total + txContribution walletAddress custodial mint meta tx)

/-- The deposit aggregator: total over the fetched transaction list,
starting from an empty dedup set and a zero total. -/
def aggregate (walletAddress custodial mint : String)
    (txs : List (Option ParsedTx)) : Rat :=
  aggregateGo walletAddress custodial mint txs [] 0

/-- Errors surfaced by the pipeline: the wallet string is not a well-formed
public key (`new PublicKey` throws), or the ledger query service failed. -/
inductive Err where
  | invalidAccount
  | sourceUnavailable
  deriving Repr, DecidableEq

/-- The external world for one call: whether `new PublicKey(walletAddress)`
succeeds, and the outcome of the network fetch (signature listing plus
batched detail fetches, flattened to the list of fetched transactions). -/
structure Env where
  validAccount : Bool
  fetch : Except Err (List (Option ParsedTx))

/-- Observable outcome of one call: the returned value or thrown error, the
final cache, whether the try-block pipeline was entered, and how many
network fetch rounds were issued (0 when failing before any network call). -/
structure RunResult where
  result : Except Err Rat
  cache : Cache
  attempted : Bool
  fetchCalls : Nat

/-- The catch block: return the currently cached value if one is present,
even if the entry is no longer fresh; otherwise rethrow. -/
def fallback (e : Err) (cache1 : Cache) (walletAddress : String) (n : Nat) :
    RunResult :=
  match cache1 walletAddress with
  | some c => ⟨.ok c.amount, cache1, true, n⟩
  | none => ⟨.error e, cache1, true, n⟩

/-- The try block: parse the wallet key, fetch, aggregate, cache and return
the total; on any throw, run the catch-block fallback. -/
def runPipeline (custodial mint : String) (env : Env)
    (cache1 : Cache) (walletAddress : String) (now : Int) : RunResult :=
  if env.validAccount then
    match env.fetch with
    | .ok txs =>
        let total := aggregate walletAddress custodial mint txs
        ⟨.ok total, cachePut cache1 walletAddress ⟨total, now⟩, true, 1⟩
    | .error e => fallback e cache1 walletAddress 1
  else fallback .invalidAccount cache1 walletAddress 0

/-- `getUserStakedAmount`: purge expired entries, return a fresh cached
amount if present, otherwise attempt the fetch pipeline with the
catch-block fallback. -/
def getUserStakedAmount (ttl : Int) (custodial mint : String) (env : Env)
    (cache : Cache) (walletAddress : String) (now : Int) : RunResult :=
  let cache1 := purgeExpired now ttl cache
  match cache1 walletAddress with
  | some e =>
      if now - e.timestamp < ttl then ⟨.ok e.amount, cache1, false, 0⟩
      else runPipeline custodial mint env cache1 walletAddress now
  | none => runPipeline custodial mint env cache1 walletAddress now

/-! ### Helper lemmas -/

theorem purgeExpired_of_none {now ttl : Int} {cache : Cache} {w : String}
    (h : cache w = none) : purgeExpired now ttl cache w = none := by
  simp [purgeExpired, h]

theorem purgeExpired_of_fresh {now ttl : Int} {cache : Cache} {w : String}
    {e : CacheEntry} (h : cache w = some e) (hfresh : now - e.timestamp < ttl) :
    purgeExpired now ttl cache w = some e := by
  simp only [purgeExpired, h]
  rw [if_neg (by omega)]

theorem purgeExpired_eq_some {now ttl : Int} {cache : Cache} {w : String}
    {e : CacheEntry} (h : purgeExpired now ttl cache w = some e) :
    cache w = some e ∧ now - e.timestamp ≤ ttl := by
  unfold purgeExpired at h
  cases hc : cache w with
  | none => rw [hc] at h; exact absurd h (by simp)
  | some e' =>
      rw [hc] at h
      simp only [] at h
      by_cases hage : now - e'.timestamp > ttl
      · rw [if_pos hage] at h; exact absurd h (by simp)
      · rw [if_neg hage] at h
        obtain rfl : e' = e := by simpa using h
        exact ⟨rfl, by omega⟩

theorem purgeExpired_of_expired {now ttl : Int} {cache : Cache} {w : String}
    {e : CacheEntry} (h : cache w = some e) (hexp : now - e.timestamp > ttl) :
    purgeExpired now ttl cache w = none := by
  simp only [purgeExpired, h]
  rw [if_pos hexp]

theorem purgeExpired_of_le {now ttl : Int} {cache : Cache} {w : String}
    {e : CacheEntry} (h : cache w = some e) (hage : now - e.timestamp ≤ ttl) :
    purgeExpired now ttl cache w = some e := by
  simp only [purgeExpired, h]
  rw [if_neg (by omega)]

theorem runPipeline_attempted (custodial mint : String) (env : Env)
    (cache1 : Cache) (walletAddress : String) (now : Int) :
    (runPipeline custodial mint env cache1 walletAddress now).attempted = true := by
  unfold runPipeline fallback
  cases env.validAccount <;> simp
  · cases cache1 walletAddress <;> simp
  · cases env.fetch with
    | ok txs => simp
    | error e => cases cache1 walletAddress <;> simp

/-! ### Claim theorems -/

/-- C4: for every user and call time, if the cache holds an entry for the
user with `now - entry.timestamp < TTL`, `getUserStakedAmount` returns the
entry's amount, never enters the fetch pipeline, and performs no network
fetch. -/
theorem fresh_cache_hit_returns_without_fetch (ttl : Int)
    (custodial mint : String) (env : Env) (cache : Cache)
    (walletAddress : String) (now : Int) (e : CacheEntry)
    (hc : cache walletAddress = some e)
    (hfresh : now - e.timestamp < ttl) :
    (getUserStakedAmount ttl custodial mint env cache walletAddress now).result
        = .ok e.amount ∧
    (getUserStakedAmount ttl custodial mint env cache walletAddress now).attempted
        = false ∧
    (getUserStakedAmount ttl custodial mint env cache walletAddress now).fetchCalls
        = 0 := by
  have h1 : purgeExpired now ttl cache walletAddress = some e :=
    purgeExpired_of_fresh hc hfresh
  simp only [getUserStakedAmount, h1, if_pos hfresh]
  exact ⟨trivial, trivial, trivial⟩

/-- C4 witness: a concrete fresh entry is returned with no fetch. -/
theorem fresh_cache_hit_returns_without_fetch_check :
    (getUserStakedAmount 100 "inc" "usdt" ⟨true, .error .sourceUnavailable⟩
        (fun k => if k = "u" then some ⟨70, 0⟩ else none) "u" 50).result
      = .ok 70 ∧
    (getUserStakedAmount 100 "inc" "usdt" ⟨true, .error .sourceUnavailable⟩
        (fun k => if k = "u" then some ⟨70, 0⟩ else none) "u" 50).attempted
      = false ∧
    (getUserStakedAmount 100 "inc" "usdt" ⟨true, .error .sourceUnavailable⟩
        (fun k => if k = "u" then some ⟨70, 0⟩ else none) "u" 50).fetchCalls
      = 0 :=
  fresh_cache_hit_returns_without_fetch 100 "inc" "usdt"
    ⟨true, .error .sourceUnavailable⟩
    (fun k => if k = "u" then some ⟨70, 0⟩ else none) "u" 50 ⟨70, 0⟩
    (by simp) (by decide)

/-- C5: if no cache entry (fresh or stale) exists for the user and the fetch
pipeline fails, the call fails, surfacing the pipeline's error to the
caller (the condition the spec labels `NoDataAvailable`). -/
theorem pipeline_failure_without_entry_fails (ttl : Int)
    (custodial mint : String) (env : Env) (cache : Cache)
    (walletAddress : String) (now : Int) (e : Err)
    (hc : cache walletAddress = none)
    (hv : env.validAccount = true)
    (hf : env.fetch = .error e) :
    (getUserStakedAmount ttl custodial mint env cache walletAddress now).result
        = .error e ∧
    (getUserStakedAmount ttl custodial mint env cache walletAddress now).fetchCalls
        = 1 := by
  have h1 : purgeExpired now ttl cache walletAddress = none :=
    purgeExpired_of_none hc
  simp only [getUserStakedAmount, h1, runPipeline, hv, if_true, hf, fallback]
  exact ⟨trivial, trivial⟩

/-- C5 witness: a concrete failing fetch with an empty cache surfaces the
error. -/
theorem pipeline_failure_without_entry_fails_check :
    (getUserStakedAmount 100 "inc" "usdt" ⟨true, .error .sourceUnavailable⟩
        (fun _ => none) "u" 0).result = .error .sourceUnavailable ∧
    (getUserStakedAmount 100 "inc" "usdt" ⟨true, .error .sourceUnavailable⟩
        (fun _ => none) "u" 0).fetchCalls = 1 :=
  pipeline_failure_without_entry_fails 100 "inc" "usdt"
    ⟨true, .error .sourceUnavailable⟩ (fun _ => none) "u" 0
    .sourceUnavailable rfl rfl rfl

/-- C2 counterexample: with an ill-formed wallet identifier (`new PublicKey`
throws) but a surviving non-fresh cache entry for that identifier, the
pipeline is attempted and the InvalidAccount error is absorbed by the
catch-block fallback: the call returns the cached amount 5 instead of
surfacing the error. -/
theorem invalidAccount_absorbed_when_entry_exists :
    (getUserStakedAmount 100 "inc" "usdt" ⟨false, .error .sourceUnavailable⟩
        (fun k => if k = "bad" then some ⟨5, 100⟩ else none) "bad" 200).result
      = .ok 5 ∧
    (getUserStakedAmount 100 "inc" "usdt" ⟨false, .error .sourceUnavailable⟩
        (fun k => if k = "bad" then some ⟨5, 100⟩ else none) "bad" 200).attempted
      = true :=
  ⟨rfl, rfl⟩

/-- C2 (amended): for every ill-formed identifier with no cache entry, the
call fails with InvalidAccount before any network fetch is issued. -/
theorem invalidAccount_reaches_caller_when_no_entry (ttl : Int)
    (custodial mint : String) (env : Env) (cache : Cache)
    (walletAddress : String) (now : Int)
    (hv : env.validAccount = false)
    (hc : cache walletAddress = none) :
    (getUserStakedAmount ttl custodial mint env cache walletAddress now).result
        = .error .invalidAccount ∧
    (getUserStakedAmount ttl custodial mint env cache walletAddress now).fetchCalls
        = 0 := by
  have h1 : purgeExpired now ttl cache walletAddress = none :=
    purgeExpired_of_none hc
  simp only [getUserStakedAmount, h1, runPipeline, hv, Bool.false_eq_true,
    if_false, fallback]
  exact ⟨trivial, trivial⟩

/-- C2 (amended) witness: a concrete ill-formed identifier with an empty
cache fails with InvalidAccount and zero fetches. -/
theorem invalidAccount_reaches_caller_when_no_entry_check :
    (getUserStakedAmount 100 "inc" "usdt" ⟨false, .error .sourceUnavailable⟩
        (fun _ => none) "bad" 0).result = .error .invalidAccount ∧
    (getUserStakedAmount 100 "inc" "usdt" ⟨false, .error .sourceUnavailable⟩
        (fun _ => none) "bad" 0).fetchCalls = 0 :=
  invalidAccount_reaches_caller_when_no_entry 100 "inc" "usdt"
    ⟨false, .error .sourceUnavailable⟩ (fun _ => none) "bad" 0 rfl rfl

/-- C1: at the failing input — an entry of amount 70 aged beyond the TTL
(age 200 > TTL 100) and a failing fetch — the start-of-call purge has
already deleted the entry, so the catch-block fallback finds nothing and the
call rethrows the fetch error instead of returning the stale amount 70. -/
theorem expired_entry_purged_before_fallback :
    (getUserStakedAmount 100 "inc" "usdt" ⟨true, .error .sourceUnavailable⟩
        (fun k => if k = "u" then some ⟨70, 0⟩ else none) "u" 200).result
      = .error .sourceUnavailable ∧
    (getUserStakedAmount 100 "inc" "usdt" ⟨true, .error .sourceUnavailable⟩
        (fun k => if k = "u" then some ⟨70, 0⟩ else none) "u" 200).cache "u"
      = none :=
  ⟨rfl, rfl⟩

/-- C10: on the failure-fallback path (entry survives the purge, entry is
not fresh, pipeline fails), the call returns the cached amount, the user's
cache entry is left exactly as it was (neither amount nor timestamp is
touched), and a later invocation after the entry's expiry enters the fetch
pipeline again. -/
theorem degraded_fallback_preserves_entry (ttl : Int) (custodial mint : String)
    (env env2 : Env) (cache : Cache) (walletAddress : String)
    (now now2 : Int) (c : CacheEntry) (e : Err)
    (hp : purgeExpired now ttl cache walletAddress = some c)
    (hstale : ¬ now - c.timestamp < ttl)
    (hfail : env.validAccount = false ∨ env.fetch = .error e)
    (hexp : now2 - c.timestamp > ttl) :
    (getUserStakedAmount ttl custodial mint env cache walletAddress now).result
        = .ok c.amount ∧
    (getUserStakedAmount ttl custodial mint env cache walletAddress now).cache
        walletAddress = cache walletAddress ∧
    cache walletAddress = some c ∧
    (getUserStakedAmount ttl custodial mint env2
        ((getUserStakedAmount ttl custodial mint env cache walletAddress now).cache)
        walletAddress now2).attempted = true := by
  obtain ⟨hcw, _⟩ := purgeExpired_eq_some hp
  have hrun : ∃ n, getUserStakedAmount ttl custodial mint env cache walletAddress now
      = ⟨.ok c.amount, purgeExpired now ttl cache, true, n⟩ := by
    simp only [getUserStakedAmount, hp, if_neg hstale]
    rcases hfail with hv | hf
    · exact ⟨0, by simp only [runPipeline, hv, Bool.false_eq_true, if_false,
        fallback, hp]⟩
    · cases hv : env.validAccount with
      | false => exact ⟨0, by simp only [runPipeline, hv, Bool.false_eq_true,
          if_false, fallback, hp]⟩
      | true => exact ⟨1, by simp only [runPipeline, hv, if_true, hf,
          fallback, hp]⟩
  obtain ⟨n, hrun⟩ := hrun
  rw [hrun]
  refine ⟨rfl, hp.trans hcw.symm, hcw, ?_⟩
  have h2 : purgeExpired now2 ttl (purgeExpired now ttl cache) walletAddress
      = none := purgeExpired_of_expired hp hexp
  simp only [getUserStakedAmount, h2]
  exact runPipeline_attempted custodial mint env2
    (purgeExpired now2 ttl (purgeExpired now ttl cache)) walletAddress now2

/-- C10 witness: a concrete degraded call (entry of age exactly the TTL,
failing fetch) returns 70, leaves the entry untouched, and a later call
after expiry re-enters the pipeline. -/
theorem degraded_fallback_preserves_entry_check :
    (getUserStakedAmount 100 "inc" "usdt" ⟨true, .error .sourceUnavailable⟩
        (fun k => if k = "u" then some ⟨70, 0⟩ else none) "u" 100).result
      = .ok 70 ∧
    (getUserStakedAmount 100 "inc" "usdt" ⟨true, .error .sourceUnavailable⟩
        (fun k => if k = "u" then some ⟨70, 0⟩ else none) "u" 100).cache "u"
      = (fun k => if k = "u" then some ⟨70, 0⟩ else none : Cache) "u" ∧
    (fun k => if k = "u" then some ⟨70, 0⟩ else none : Cache) "u"
      = some ⟨70, 0⟩ ∧
    (getUserStakedAmount 100 "inc" "usdt" ⟨true, .ok []⟩
        ((getUserStakedAmount 100 "inc" "usdt" ⟨true, .error .sourceUnavailable⟩
          (fun k => if k = "u" then some ⟨70, 0⟩ else none) "u" 100).cache)
        "u" 201).attempted = true :=
  degraded_fallback_preserves_entry 100 "inc" "usdt"
    ⟨true, .error .sourceUnavailable⟩ ⟨true, .ok []⟩
    (fun k => if k = "u" then some ⟨70, 0⟩ else none) "u" 100 201 ⟨70, 0⟩
    .sourceUnavailable (by simp [purgeExpired]) (by decide)
    (Or.inr rfl) (by decide)

theorem fallback_cache_eq (e : Err) (cache1 : Cache) (w : String) (n : Nat) :
    (fallback e cache1 w n).cache = cache1 := by
  unfold fallback
  cases cache1 w <;> rfl

theorem runPipeline_cache_spec (custodial mint : String) (env : Env)
    (cache1 : Cache) (walletAddress : String) (now : Int) :
    (runPipeline custodial mint env cache1 walletAddress now).cache
        walletAddress = cache1 walletAddress ∨
    ∃ txs, env.validAccount = true ∧ env.fetch = .ok txs ∧
      (runPipeline custodial mint env cache1 walletAddress now).cache
          walletAddress
        = some ⟨aggregate walletAddress custodial mint txs, now⟩ ∧
      (runPipeline custodial mint env cache1 walletAddress now).result
        = .ok (aggregate walletAddress custodial mint txs) := by
  obtain ⟨va, f⟩ := env
  cases va with
  | false => exact Or.inl (congrFun (fallback_cache_eq _ _ _ _) _)
  | true =>
      cases f with
      | error e => exact Or.inl (congrFun (fallback_cache_eq _ _ _ _) _)
      | ok txs =>
          refine Or.inr ⟨txs, rfl, rfl, ?_, rfl⟩
          show cachePut cache1 walletAddress _ walletAddress = _
          simp [cachePut]

/-- C3: the user's cache entry is never created, overwritten or partially
written except by a fully successful aggregation run: after any call the
entry is either exactly what the start-of-call purge left of the previous
cache (and the purge itself only removes entries, never writes), or it is
the freshly and fully computed aggregation total, written together with a
successful return of that same total. -/
theorem cache_entry_written_only_on_success (ttl : Int)
    (custodial mint : String) (env : Env) (cache : Cache)
    (walletAddress : String) (now : Int) :
    (∀ k, purgeExpired now ttl cache k = cache k ∨
        purgeExpired now ttl cache k = none) ∧
    ((getUserStakedAmount ttl custodial mint env cache walletAddress now).cache
          walletAddress = purgeExpired now ttl cache walletAddress ∨
      ∃ txs, env.validAccount = true ∧ env.fetch = .ok txs ∧
        (getUserStakedAmount ttl custodial mint env cache walletAddress now).cache
            walletAddress
          = some ⟨aggregate walletAddress custodial mint txs, now⟩ ∧
        (getUserStakedAmount ttl custodial mint env cache walletAddress now).result
          = .ok (aggregate walletAddress custodial mint txs)) := by
  constructor
  · intro k
    cases hck : cache k with
    | none => exact Or.inr (purgeExpired_of_none hck)
    | some e =>
        by_cases h : now - e.timestamp > ttl
        · exact Or.inr (purgeExpired_of_expired hck h)
        · exact Or.inl (purgeExpired_of_le hck (by omega))
  · have hkey : getUserStakedAmount ttl custodial mint env cache walletAddress now
        = runPipeline custodial mint env (purgeExpired now ttl cache)
            walletAddress now ∨
        (getUserStakedAmount ttl custodial mint env cache walletAddress now).cache
          = purgeExpired now ttl cache := by
      cases hcw : purgeExpired now ttl cache walletAddress with
      | none => exact Or.inl (by simp only [getUserStakedAmount, hcw])
      | some e =>
          by_cases hfresh : now - e.timestamp < ttl
          · exact Or.inr (by simp only [getUserStakedAmount, hcw, if_pos hfresh])
          · exact Or.inl (by simp only [getUserStakedAmount, hcw, if_neg hfresh])
    rcases hkey with hk | hk
    · rw [hk]
      exact runPipeline_cache_spec custodial mint env
        (purgeExpired now ttl cache) walletAddress now
    · exact Or.inl (congrFun hk walletAddress)

/-- C7: a transaction in which the queried user does not appear among the
participant account keys contributes exactly zero: its computed
contribution is zero, and the aggregation step over it passes the running
total through unchanged, whatever balance changes it records. -/
theorem nonparticipant_tx_contributes_zero (w custodial mint : String)
    (meta : TxMeta) (tx : ParsedTx) (rest : List (Option ParsedTx))
    (p : List String) (t : Rat)
    (h : tx.accountKeys.contains w = false) :
    txContribution w custodial mint meta tx = 0 ∧
    aggregateGo w custodial mint (some tx :: rest) p t
      = aggregateGo w custodial mint rest
          (match tx.meta with
           | none => p
           | some _ => if p.contains tx.signature then p else tx.signature :: p)
          t := by
  have hzero : txContribution w custodial mint meta tx = 0 := by
    unfold txContribution
    rw [h, if_neg (by simp)]
  refine ⟨hzero, ?_⟩
  cases hm : tx.meta with
  | none => simp only [aggregateGo, hm]
  | some meta' =>
      have hzero' : txContribution w custodial mint meta' tx = 0 := by
        unfold txContribution
        rw [h, if_neg (by simp)]
      cases hc : p.contains tx.signature with
      | true => simp only [aggregateGo, hm, hc, if_true]
      | false => simp only [aggregateGo, hm, hc, Bool.false_eq_true, if_false,
          hzero', add_zero]

/-- C7 witness: a transaction crediting the custodial wallet by 50 in the
tracked mint contributes zero when the queried user is not a participant. -/
theorem nonparticipant_tx_contributes_zero_check :
    txContribution "U" "inc" "usdt"
        ⟨some [⟨3, some "inc", "usdt", some 0⟩],
          some [⟨3, some "inc", "usdt", some 50⟩]⟩
        ⟨"s1", ["W", "inc"], some ⟨some [⟨3, some "inc", "usdt", some 0⟩],
          some [⟨3, some "inc", "usdt", some 50⟩]⟩⟩ = 0 ∧
    aggregateGo "U" "inc" "usdt"
        [some ⟨"s1", ["W", "inc"], some ⟨some [⟨3, some "inc", "usdt", some 0⟩],
          some [⟨3, some "inc", "usdt", some 50⟩]⟩⟩] [] 7
      = aggregateGo "U" "inc" "usdt" []
          (match (⟨"s1", ["W", "inc"],
              some ⟨some [⟨3, some "inc", "usdt", some 0⟩],
                some [⟨3, some "inc", "usdt", some 50⟩]⟩⟩ : ParsedTx).meta with
           | none => []
           | some _ => if List.contains [] "s1" then [] else ["s1"])
          7 :=
  nonparticipant_tx_contributes_zero "U" "inc" "usdt"
    ⟨some [⟨3, some "inc", "usdt", some 0⟩],
      some [⟨3, some "inc", "usdt", some 50⟩]⟩
    ⟨"s1", ["W", "inc"], some ⟨some [⟨3, some "inc", "usdt", some 0⟩],
      some [⟨3, some "inc", "usdt", some 50⟩]⟩⟩ [] [] 7 (by decide)

/-- C8: for a qualifying slot (owned by the custodial wallet, tagged with
the tracked mint), the contribution is the positive part of the delta: the
full `postAmount - preAmount` when strictly positive, and exactly zero for
any negative or zero delta. -/
theorem only_positive_delta_contributes (pres : List TokenBalance)
    (post : TokenBalance) (custodial mint : String)
    (h1 : post.owner = some custodial) (h2 : post.mint = mint) :
    slotContribution pres post custodial mint
      = max 0 (post.uiAmount.getD 0 - preSlotAmount pres post) := by
  simp only [slotContribution, h1, h2, and_self, if_true]
  by_cases h : preSlotAmount pres post < post.uiAmount.getD 0
  · rw [if_pos h, max_eq_right (by linarith)]
  · rw [if_neg h, max_eq_left (by linarith)]

/-- C8 witness: a concrete credited slot contributes its positive delta. -/
theorem only_positive_delta_contributes_check :
    slotContribution [⟨3, some "x", "other", some 50⟩]
        ⟨3, some "inc", "usdt", some 120⟩ "inc" "usdt"
      = max 0 ((some (120 : Rat) : Option Rat).getD 0
          - preSlotAmount [⟨3, some "x", "other", some 50⟩]
              ⟨3, some "inc", "usdt", some 120⟩) :=
  only_positive_delta_contributes [⟨3, some "x", "other", some 50⟩]
    ⟨3, some "inc", "usdt", some 120⟩ "inc" "usdt" rfl rfl

theorem aggregateGo_skip (w custodial mint : String) (d : ParsedTx)
    (l3 : List (Option ParsedTx)) :
    ∀ (l2 : List (Option ParsedTx)) (p : List String) (t : Rat),
      d.meta = none ∨ p.contains d.signature = true →
      aggregateGo w custodial mint (l2 ++ some d :: l3) p t
        = aggregateGo w custodial mint (l2 ++ l3) p t := by
  intro l2
  induction l2 with
  | nil =>
      intro p t h
      rcases h with hm | hp
      · simp only [List.nil_append, aggregateGo, hm]
      · cases hm : d.meta with
        | none => simp only [List.nil_append, aggregateGo, hm]
        | some meta =>
            simp only [List.nil_append, aggregateGo, hm]
            rw [if_pos hp]
  | cons x l2 ih =>
      intro p t h
      cases x with
      | none =>
          simp only [List.cons_append, aggregateGo]
          exact ih p t h
      | some tx =>
          cases hm : tx.meta with
          | none =>
              simp only [List.cons_append, aggregateGo, hm]
              exact ih p t h
          | some meta =>
              by_cases hc : p.contains tx.signature = true
              · simp only [List.cons_append, aggregateGo, hm]
                rw [if_pos hc, if_pos hc]
                exact ih p t h
              · simp only [List.cons_append, aggregateGo, hm]
                rw [if_neg hc, if_neg hc]
                apply ih
                rcases h with h | h
                · exact Or.inl h
                · exact Or.inr (by rw [List.contains_cons, h, Bool.or_true])

/-- C6: a transaction detail that appears more than once in the fetched
list is counted exactly once by the aggregator: dropping the repeated
occurrence does not change the total. -/
theorem duplicate_detail_counted_once (w custodial mint : String)
    (l1 l2 l3 : List (Option ParsedTx)) (d : ParsedTx) :
    aggregate w custodial mint (l1 ++ some d :: l2 ++ some d :: l3)
      = aggregate w custodial mint (l1 ++ some d :: l2 ++ l3) := by
  unfold aggregate
  suffices h : ∀ (p : List String) (t : Rat),
      aggregateGo w custodial mint (l1 ++ some d :: l2 ++ some d :: l3) p t
        = aggregateGo w custodial mint (l1 ++ some d :: l2 ++ l3) p t from
    h [] 0
  induction l1 with
  | nil =>
      intro p t
      cases hm : d.meta with
      | none =>
          simp only [List.nil_append, aggregateGo, hm]
          exact aggregateGo_skip w custodial mint d l3 l2 p t (Or.inl hm)
      | some meta =>
          by_cases hc : p.contains d.signature = true
          · simp only [List.nil_append, aggregateGo, hm]
            rw [if_pos hc, if_pos hc]
            exact aggregateGo_skip w custodial mint d l3 l2 p t (Or.inr hc)
          · simp only [List.nil_append, aggregateGo, hm]
            rw [if_neg hc, if_neg hc]
            exact aggregateGo_skip w custodial mint d l3 l2 (d.signature :: p)
              _ (Or.inr (by simp [List.contains_cons]))
  | cons x l1 ih =>
      intro p t
      cases x with
      | none =>
          simp only [List.cons_append, aggregateGo]
          exact ih p t
      | some tx =>
          cases hm : tx.meta with
          | none =>
              simp only [List.cons_append, aggregateGo, hm]
              exact ih p t
          | some meta =>
              by_cases hc : p.contains tx.signature = true
              · simp only [List.cons_append, aggregateGo, hm]
                rw [if_pos hc, if_pos hc]
                exact ih p t
              · simp only [List.cons_append, aggregateGo, hm]
                rw [if_neg hc, if_neg hc]
                exact ih _ _

/-- Written from the spec's words: the pre-balance entry for the same
balance-record slot, matched by positional index within the transaction; a
missing pre-balance entry or a missing amount is treated as zero. -/
def specPreAmount (pres : List TokenBalance) (post : TokenBalance) : Rat :=
  match pres.find? (fun b => b.accountIndex == post.accountIndex) with
  | some b =>
      match b.uiAmount with
      | some a => a
      | none => 0
  | none => 0

/-- Written from the spec's words: a missing post-balance amount is treated
as zero. -/
def specPostAmount (post : TokenBalance) : Rat :=
  match post.uiAmount with
  | some a => a
  | none => 0

/-- Written from the spec's words (§4.4 steps 3–4): for every post-balance
entry owned by the custodial address and tagged with the asset id, compute
`delta = postAmount - preAmount` against the pre-balance entry of the same
slot; a strictly positive delta contributes `delta`, anything else
contributes nothing. -/
def slotContributionSpec (pres : List TokenBalance) (post : TokenBalance)
    (custodial mint : String) : Rat :=
  if post.owner = some custodial ∧ post.mint = mint then
    if 0 < specPostAmount post - specPreAmount pres post then
      specPostAmount post - specPreAmount pres post
    else 0
  else 0

/-- C9: the implemented slot pairing agrees exactly with the spec's
description (pair by balance-record slot index, missing entries and null
amounts read as zero), and the pre-balance entry is located purely by its
`accountIndex` and amount: rewriting the owner, mint, or any other field of
every pre-balance entry leaves the contribution unchanged. -/
theorem pre_matched_by_slot_index (pres : List TokenBalance)
    (post : TokenBalance) (custodial mint : String)
    (g : TokenBalance → TokenBalance)
    (hg : ∀ b, (g b).accountIndex = b.accountIndex ∧
      (g b).uiAmount = b.uiAmount) :
    slotContribution pres post custodial mint
        = slotContributionSpec pres post custodial mint ∧
    slotContribution (pres.map g) post custodial mint
        = slotContribution pres post custodial mint := by
  constructor
  · have h1 : specPreAmount pres post = preSlotAmount pres post := by
      unfold specPreAmount preSlotAmount
      cases hf : pres.find? (fun b => b.accountIndex == post.accountIndex) with
      | none => simp
      | some b => cases hb : b.uiAmount with
        | none => simp [hb]
        | some a => simp [hb]
    have h2 : specPostAmount post = post.uiAmount.getD 0 := by
      unfold specPostAmount
      cases hp : post.uiAmount with
      | none => simp
      | some a => simp
    unfold slotContribution slotContributionSpec
    rw [h1, h2]
    by_cases hq : post.owner = some custodial ∧ post.mint = mint
    · rw [if_pos hq, if_pos hq]
      by_cases hlt : preSlotAmount pres post < post.uiAmount.getD 0
      · rw [if_pos hlt, if_pos (sub_pos.mpr hlt)]
      · rw [if_neg hlt, if_neg (fun hcon => hlt (sub_pos.mp hcon))]
    · rw [if_neg hq, if_neg hq]
  · have hmap : preSlotAmount (pres.map g) post = preSlotAmount pres post := by
      unfold preSlotAmount
      rw [List.find?_map]
      have hpred : (fun b => b.accountIndex == post.accountIndex) ∘ g
          = fun b => b.accountIndex == post.accountIndex := by
        funext b
        simp [Function.comp, (hg b).1]
      rw [hpred]
      cases hf : pres.find? (fun b => b.accountIndex == post.accountIndex) with
      | none => rfl
      | some b => simp [(hg b).2]
    unfold slotContribution
    rw [hmap]

/-- C9 witness: a pre-balance entry with a different owner and mint is still
the one paired with the post slot, because only its slot index matters. -/
theorem pre_matched_by_slot_index_check :
    slotContribution [⟨7, some "someone", "othermint", some 50⟩]
        ⟨7, some "inc", "usdt", some 120⟩ "inc" "usdt"
      = slotContributionSpec [⟨7, some "someone", "othermint", some 50⟩]
          ⟨7, some "inc", "usdt", some 120⟩ "inc" "usdt" ∧
    slotContribution (List.map id [⟨7, some "someone", "othermint", some 50⟩])
        ⟨7, some "inc", "usdt", some 120⟩ "inc" "usdt"
      = slotContribution [⟨7, some "someone", "othermint", some 50⟩]
          ⟨7, some "inc", "usdt", some 120⟩ "inc" "usdt" :=
  pre_matched_by_slot_index [⟨7, some "someone", "othermint", some 50⟩]
    ⟨7, some "inc", "usdt", some 120⟩ "inc" "usdt" id
    (fun _ => ⟨rfl, rfl⟩)

end Solana
